import Mathlib

/-!
Verification development for the `Labels` control tag
(`src/tags/control/Labels/Labels.js`).

The file shallowly embeds the data model and the operations of the tag:

* `LabelEntry` — one label child (`{ id, value, background, isEmpty }`);
  `value = none` models JavaScript `null`, reserved for the empty sentinel.
* `afterCreate` — the model action installing the `allowempty` sentinel.
* `getUpdatedConfigLbl` / `getUpdatedRootConfig` — the template-literal
  configuration generators (including the JavaScript array-to-string
  comma join of `${ labels.map(...) }`).
* `parseNodes` / `parseDocument` — an executable model of the browser's
  `DOMParser` for `application/xml` documents, sufficient for the
  documents this component generates and reads back; malformed markup
  yields `none` (the `parsererror` document, in which the `Labels`
  lookup then fails).
* `getDefaultOptions` — the read-back of existing label values from a
  configuration document; the `Bool` component records that
  `console.error` was invoked.
* `handleApplySelection`, `handleDiscardSelection`, `handleAddLabel`,
  `resolveSelection` — the selection-dialog workflow.
* A small state machine for the store's option-catalog lifecycle.

Selection keys are JavaScript values: the component seeds its selection
state with `i.value.toLowerCase` (a method reference, the call
parentheses are missing in the source), so keys are either strings or
the `String.prototype.toLowerCase` function object, modelled by `JsVal`.
-/

/-- JavaScript `String.prototype.toLowerCase`, modelled character-wise
(the values in play are ASCII). Stated over the character list so that it
evaluates inside the kernel. -/
def strToLower (s : String) : String :=
  (s.data.map Char.toLower).asString

/-- One label child record. `value = none` models `null`; `isEmpty` is the
runtime flag set by `setEmpty()` on the empty sentinel. `id` is absent
(`none`, JavaScript `undefined`) on records that never carried one. -/
structure LabelEntry where
  id : Option Nat := none
  value : Option String := none
  background : Option String := none
  isEmpty : Bool := false
deriving DecidableEq, Repr

/-- Rendering of `label.id` inside a template literal: numbers print their
digits, an absent field prints as `undefined`. -/
def jsShowId : Option Nat → String
  | some n => toString n
  | none => "undefined"

/-- Rendering of `label.value` inside a template literal: `null` prints as
the four characters `null`. -/
def jsShowValue : Option String → String
  | some s => s
  | none => "null"

/-- JavaScript `Array.prototype.toString`, as invoked by interpolating an
array into a template literal: elements joined with commas. -/
def jsJoin : List String → String
  | [] => ""
  | [a] => a
  | a :: rest => a ++ "," ++ jsJoin rest

/-- One `<Label key="…" value="…"/>` child declaration of the generated
fragment (the body of the arrow function inside `labels.map`). -/
def labelStr (label : LabelEntry) : String :=
  "<Label key=\"" ++ jsShowId label.id ++ "\" value=\"" ++ jsShowValue label.value ++ "\"/>"

/-- `getUpdatedConfigLbl` — the fragment template literal. Interpolating
`labels.map(...)` stringifies the array, joining the items with commas. -/
def getUpdatedConfigLbl (labels : List LabelEntry) : String :=
  "<Labels name=\"tricks\" toName=\"audio\" choice=\"multiple\">\n        "
    ++ jsJoin (labels.map labelStr)
    ++ "\n      </Labels>"

/-- `getUpdatedRootConfig` — embeds the fragment into the fixed document
skeleton (header, video source, fragment, audio source). -/
def getUpdatedRootConfig (lblConfig : String) : String :=
  "\n    <View>\n      <Header value=\"Video timeline segmentation via Audio sync trick\"/>\n      <Video name=\"video\" value=\"$video\" sync=\"audio\"></Video>\n      "
    ++ lblConfig
    ++ "\n      <Audio name=\"audio\" value=\"$video\" sync=\"video\" zoom=\"true\" speed=\"true\" volume=\"true\"/>\n    </View>\n    "

/-! ## A model of `DOMParser` for `application/xml` -/

/-- DOM nodes as seen by `getDefaultOptions`: elements with attributes and
child nodes, and text nodes. -/
inductive XNode where
  | elem (name : String) (attrs : List (String × String)) (children : List XNode)
  | text (s : String)

/-- XML whitespace. -/
def isWs (c : Char) : Bool :=
  c == ' ' || c == '\n' || c == '\t' || c == '\r'

/-- Characters accepted in tag and attribute names. -/
def isNameChar (c : Char) : Bool :=
  c.isAlphanum || c == '-' || c == '_' || c == '.' || c == ':'

/-- Split a character list at the first character failing `p`. -/
def spanP (p : Char → Bool) : List Char → List Char × List Char
  | [] => ([], [])
  | c :: cs =>
    if p c then
      let r := spanP p cs
      (c :: r.1, r.2)
    else ([], c :: cs)

/-- Parse a run of `name="value"` attribute declarations, stopping in front
of `/` or `>`. Attribute values may not contain a quote; a raw `<` or `&`
inside a value is a well-formedness error (as in `DOMParser`). -/
def parseAttrs : Nat → List Char → Option (List (String × String) × List Char)
  | 0, _ => none
  | fuel + 1, cs =>
    match (spanP isWs cs).2 with
    | [] => none
    | c :: cs2 =>
      if c = '/' ∨ c = '>' then some ([], c :: cs2)
      else
        let n := spanP isNameChar (c :: cs2)
        if n.1.isEmpty then none
        else
          match n.2 with
          | [] => none
          | d :: r1 =>
            if d = '=' then
              match r1 with
              | [] => none
              | q :: r2 =>
                if q = '"' then
                  let v := spanP (fun ch => ch != '"') r2
                  if v.1.contains '<' || v.1.contains '&' then none
                  else
                    match v.2 with
                    | [] => none
                    | q2 :: r4 =>
                      if q2 = '"' then
                        match parseAttrs fuel r4 with
                        | some (ps, r5) => some ((n.1.asString, v.1.asString) :: ps, r5)
                        | none => none
                      else none
                else none
            else none

/-- Parse a sequence of sibling nodes, stopping at end of input or in front
of a closing tag `</…`. Returns the nodes and the unconsumed suffix. -/
def parseNodes : Nat → List Char → Option (List XNode × List Char)
  | 0, _ => none
  | _ + 1, [] => some ([], [])
  | fuel + 1, c :: cs =>
    if c = '<' then
      match cs with
      | [] => none
      | c2 :: cs2 =>
        if c2 = '/' then some ([], '<' :: '/' :: cs2)
        else
          let n := spanP isNameChar (c2 :: cs2)
          if n.1.isEmpty then none
          else
            match parseAttrs (n.2.length + 1) n.2 with
            | none => none
            | some (ps, r2) =>
              match r2 with
              | [] => none
              | d :: r3 =>
                if d = '/' then
                  match r3 with
                  | [] => none
                  | d2 :: r4 =>
                    if d2 = '>' then
                      match parseNodes fuel r4 with
                      | some (ns, r5) => some (XNode.elem n.1.asString ps [] :: ns, r5)
                      | none => none
                    else none
                else if d = '>' then
                  match parseNodes fuel r3 with
                  | none => none
                  | some (children, r4) =>
                    match r4 with
                    | lt :: sl :: r5 =>
                      if lt = '<' ∧ sl = '/' then
                        let cn := spanP isNameChar r5
                        if cn.1 = n.1 then
                          match cn.2 with
                          | gt2 :: r7 =>
                            if gt2 = '>' then
                              match parseNodes fuel r7 with
                              | some (ns, r8) =>
                                some (XNode.elem n.1.asString ps children :: ns, r8)
                              | none => none
                            else none
                          | [] => none
                        else none
                      else none
                    | _ => none
                else none
    else
      let t := spanP (fun ch => ch != '<') (c :: cs)
      match parseNodes fuel t.2 with
      | some (ns, r2) => some (XNode.text t.1.asString :: ns, r2)
      | none => none

/-- A text node consisting of whitespace only. -/
def isWsOnlyText : XNode → Bool
  | .text s => s.data.all isWs
  | .elem _ _ _ => false

/-- Model of `new DOMParser().parseFromString(config, 'application/xml')`:
a document is whitespace around exactly one root element; anything else
(unparsable markup, trailing junk, several roots) yields the
`parsererror` document, modelled as `none`. -/
def parseDocument (config : String) : Option XNode :=
  match parseNodes (config.data.length + 1) config.data with
  | some (ns, []) =>
    match ns.filter (fun n => !isWsOnlyText n) with
    | [XNode.elem n a c] => some (XNode.elem n a c)
    | _ => none
  | _ => none

/-- DOM `childNodes` (empty on text nodes). -/
def XNode.childNodes : XNode → List XNode
  | .elem _ _ cs => cs
  | .text _ => []

/-- DOM `nodeName` (`#text` on text nodes). -/
def XNode.nodeName : XNode → String
  | .elem n _ _ => n
  | .text _ => "#text"

/-- DOM `attributes.getNamedItem(k)?.value` (`none` on text nodes, which
have no attributes). -/
def XNode.getAttr : XNode → String → Option String
  | .elem _ ps _, k => (ps.find? (fun p => p.1 == k)).map (fun p => p.2)
  | .text _, _ => none

/-- `getDefaultOptions` — parses the configuration document, locates the
first child of the root named `Labels`, and collects the lower-cased
`value` attribute of each of its child nodes. The `Bool` component is
`true` when the `Labels` node was not found and `console.error` fired
(which is also the path taken on a `parsererror` document). -/
def getDefaultOptions (config : String) : List String × Bool :=
  match parseDocument config with
  | none => ([], true)
  | some viewNode =>
    match viewNode.childNodes.find? (fun n => n.nodeName == "Labels") with
    | some labelsNode =>
      (labelsNode.childNodes.filterMap
        (fun n => (n.getAttr ("value")).map (fun v => strToLower v)), false)
    | none => ([], true)

/-! ## The `LabelsModel` creation action -/

/-- The parameters of the sentinel child unshifted by `afterCreate`
(`{ value: null, type: 'label', background: defaultStyle.fillcolor }`).
`defaultStyle` lives in `core/Constants`; the exact colour is irrelevant
to every property below. -/
def emptyParams : LabelEntry :=
  { value := none, background := some ("#f48a42") }

/-- `findLabel(null)` followed by `setEmpty()` on the found node: flags the
first child whose `value` is `null` as the empty sentinel, in place. -/
def setEmptyFirstNull : List LabelEntry → List LabelEntry
  | [] => []
  | c :: cs =>
    if c.value = none then { c with isEmpty := true } :: cs
    else c :: setEmptyFirstNull cs

/-- `afterCreate` of the `LabelsModel`: when `allowempty` is set, look up a
`null`-valued child (`findLabel(null)`); if absent, unshift `emptyParams`
(or create the child array when it is `undefined`, modelled by `none`) and
take the new first child; finally call `setEmpty()` on it. -/
def afterCreate (allowempty : Bool) (children : Option (List LabelEntry)) :
    Option (List LabelEntry) :=
  if allowempty then
    match children with
    | some cs =>
      if (cs.find? (fun c => c.value = none)).isSome then
        some (setEmptyFirstNull cs)
      else
        some ({ emptyParams with isEmpty := true } :: cs)
    | none => some [{ emptyParams with isEmpty := true }]
  else children

/-! ## Selection keys and the option lists -/

/-- A JavaScript value usable as a selection key: a string, or the
`String.prototype.toLowerCase` function object that the component's
`useState` initializer produces by writing `i.value.toLowerCase` without
call parentheses (one shared function object, whatever the string). -/
inductive JsVal where
  | str (s : String)
  | methodRef
deriving DecidableEq, Repr

/-- JavaScript strict equality (`===`) on selection keys: a string never
equals the function object. -/
def jsStrictEq : JsVal → JsVal → Bool
  | .str a, .str b => a == b
  | .methodRef, .methodRef => true
  | _, _ => false

/-- The hardcoded option list of `Labels.js`. -/
def dummyData : List LabelEntry :=
  [{ id := some 1, value := some ("air_squat.down") },
   { id := some 2, value := some ("air_squat.up") },
   { id := some 3, value := some ("push_press.down") },
   { id := some 4, value := some ("push_press.up") },
   { id := some 5, value := some ("power_clean.up") },
   { id := some 6, value := some ("power_clean.down") }]

/-- The predicate of `dummyData.find(itm => itm.value.toLowerCase() ===
labelsSelection[i])`. Every `dummyData` record carries a string value; a
`null` value would throw before comparing and is modelled as no match. -/
def dummyMatches (k : JsVal) (itm : LabelEntry) : Bool :=
  match itm.value with
  | some v => jsStrictEq (.str (strToLower v)) k
  | none => false

/-- First `dummyData` record whose lower-cased value strictly equals the
key. -/
def dummyLookup (k : JsVal) : Option LabelEntry :=
  dummyData.find? (fun itm => dummyMatches k itm)

/-- The resolution loop of `handleApplySelection`: walk the pending
selection, look each key up in `dummyData`, and push the hits in order
(misses are skipped by the `if (item)` guard). -/
def resolveSelection (selection : List JsVal) : List LabelEntry :=
  selection.foldl
    (fun labels k =>
      match dummyLookup k with
      | some item => labels ++ [item]
      | none => labels)
    []

/-- Modelled from the spec: resolution of pending keys against the fetched
option catalog (`OptionCatalog.options`), §4.4 — "resolves each pending
key to a catalog entry (first match on normalized value; unmatched keys
are silently dropped)". Identical to `resolveSelection` except that the
catalog stands in place of the hardcoded list. -/
def resolveAgainstCatalog (options : List LabelEntry) (selection : List JsVal) :
    List LabelEntry :=
  selection.foldl
    (fun labels k =>
      match options.find? (fun itm => dummyMatches k itm) with
      | some item => labels ++ [item]
      | none => labels)
    []

/-! ## The selection-dialog workflow -/

/-- The component's local state: the `openLblSelection` flag of the
`InstructionsModal` and the `labelsSelection` pending keys. -/
structure CompState where
  openLblSelection : Bool
  labelsSelection : List JsVal
deriving DecidableEq, Repr

/-- Modelled from the spec: the store's `addLabel`, §4.4 — on persistence
success the controller "calls `LabelSet.replaceChildren` with the resolved
entries"; the store action is not part of this file's sources. -/
def addLabel (labels : List LabelEntry) (_children : List LabelEntry) :
    List LabelEntry :=
  labels

/-- `handleApplySelection`: resolve the pending keys against `dummyData`,
build the fragment and the document, `await saveNewConfig(...)`; call
`addLabel` only when the save resolved truthy; then close the dialog —
`setOpenLblSelection(false)` runs unconditionally. `persist` stands for
the external `saveNewConfig`; the store's children stand for
`LabelSet.children`. -/
def handleApplySelection (persist : String → Bool) (children : List LabelEntry)
    (s : CompState) : List LabelEntry × CompState :=
  let labels := resolveSelection s.labelsSelection
  let newConfigLbl := getUpdatedConfigLbl labels
  let saved := persist (getUpdatedRootConfig newConfigLbl)
  let children1 := if saved then addLabel labels children else children
  (children1, { s with openLblSelection := false })

/-! ## The option-catalog lifecycle (store side)

The store providing `fetchLabelOptions`, `labelOptions`, `labelOptLoading`
and `labelOptErrMsg` is repository code outside these sources, so its
lifecycle is modelled from the spec (§3 `OptionCatalog`, §4.2, and the §8
refresh scenario, by which a successful fetch clears the error message —
`labelOptErrMsg` becomes a blank string, while a never-assigned message is
`none`, JavaScript `null`/`undefined`). -/

/-- Fetch lifecycle status of the option catalog. -/
inductive CatStatus where
  | idle
  | loading
  | ready
  | error
deriving DecidableEq, Repr

/-- Modelled from the spec: the store state backing `labelOptions`,
`labelOptLoading` (`status = loading`) and `labelOptErrMsg`. -/
structure Catalog where
  status : CatStatus
  options : List LabelEntry
  errMsg : Option String
deriving DecidableEq, Repr

/-- The catalog before the component mounts. -/
def initCatalog : Catalog :=
  { status := .idle, options := [], errMsg := none }

/-- Observable fetch events: a fetch starting, resolving with options, or
failing with a message. -/
inductive CatEv where
  | fetchStart
  | fetchSuccess (opts : List LabelEntry)
  | fetchFailure (msg : String)

/-- Modelled from the spec: one catalog transition (§3) — `loading` on
fetch start, `ready` with the options and a cleared (blank) message on
success, `error` with the message on failure. -/
def catStep (c : Catalog) : CatEv → Catalog
  | .fetchStart => { c with status := .loading }
  | .fetchSuccess opts => { status := .ready, options := opts, errMsg := some ("") }
  | .fetchFailure m => { c with status := .error, errMsg := some m }

/-- Run a sequence of catalog events. -/
def catRun (c : Catalog) (evs : List CatEv) : Catalog :=
  evs.foldl catStep c

/-- JavaScript `String.prototype.trim`, stated over the character list so
that it evaluates inside the kernel. -/
def jsTrim (s : String) : String :=
  (((s.data.dropWhile isWs).reverse.dropWhile isWs).reverse).asString

/-- Event sequences permitted by the spec from a given state: a fetch only
starts when none is in flight, it resolves or fails only while in flight,
and failure messages are human-readable (non-blank). -/
def catValid : Catalog → List CatEv → Bool
  | _, [] => true
  | c, e :: rest =>
    (match e with
     | .fetchStart => c.status != .loading
     | .fetchSuccess _ => c.status == .loading
     | .fetchFailure m => c.status == .loading && !(jsTrim m == ""))
    && catValid (catStep c e) rest

/-- JavaScript `labelOptErrMsg?.trim() != ""`: on `null`/`undefined` the
optional chain yields `undefined`, and `undefined != ""` is `true`. -/
def jsErrMsgNonBlank : Option String → Bool
  | none => true
  | some s => !(jsTrim s == "")

/-- The `disabled` expression of the Apply-selection button:
`labelOptLoading || labelOptErrMsg?.trim() != ""`. -/
def confirmDisabled (c : Catalog) : Bool :=
  (c.status == .loading) || jsErrMsgNonBlank c.errMsg

/-! ## Seeding of the pending selection -/

/-- The `useState` initializer `[...(labelsData).map(i =>
(i.value.toLowerCase))]`: the call parentheses are missing, so each child
contributes the `toLowerCase` function object itself; on a `null` value
the property access throws a `TypeError`. -/
def seedFromLabelsData (labelsData : List LabelEntry) : Except String (List JsVal) :=
  labelsData.mapM
    (fun i =>
      match i.value with
      | some _ => Except.ok JsVal.methodRef
      | none => Except.error ("TypeError"))

/-- The selection state once the mount effects ran: with non-empty
`labelsData` the initializer's seed stays (the effect only reassigns the
configuration); with empty `labelsData` the effect replaces it with the
values extracted from the existing configuration document. -/
def mountSelection (labelsData : List LabelEntry) (config : String) :
    Except String (List JsVal) :=
  if labelsData.length > 0 then seedFromLabelsData labelsData
  else Except.ok (((getDefaultOptions config).1).map JsVal.str)

/-- Modelled from the spec: `open()` seeding, §4.4 — the pending selection
comes from the lower-cased values of the current non-sentinel children
when there are any, otherwise from
`ConfigSynchronizer.extractExistingValues`. -/
def seedSpec (children : List LabelEntry) (config : String) : List String :=
  let nonSent := (children.filter (fun c => !c.isEmpty)).filterMap (fun c => c.value)
  if nonSent.isEmpty then (getDefaultOptions config).1
  else nonSent.map strToLower

/-! ## Discarding and reopening the dialog -/

/-- Everything the dialog workflow can observe: the label-set children, the
option catalog, and the component state. -/
structure AppState where
  children : List LabelEntry
  catalog : Catalog
  ui : CompState
deriving DecidableEq, Repr

/-- `handleDiscardSelection`: `setOpenLblSelection(false)` only — the
`setLabelsSelection([])` reset is commented out in the source. -/
def handleDiscardSelection (s : AppState) : AppState :=
  { s with ui := { s.ui with openLblSelection := false } }

/-- `handleAddLabel`: `setOpenLblSelection(true)` only. -/
def handleAddLabel (s : AppState) : AppState :=
  { s with ui := { s.ui with openLblSelection := true } }

/-! ## Shapes for the parsing proofs -/

/-- The character run of one serialized attribute, ` name="value"`. -/
def attrChunk (p : String × String) : List Char :=
  ' ' :: (p.1.data ++ '=' :: '"' :: (p.2.data ++ ['"']))

/-- The character run of a serialized attribute list. -/
def attrsFlat (ps : List (String × String)) : List Char :=
  (ps.map attrChunk).flatten

/-- `s` parses (with any sufficient budget) to the sibling nodes `ns`,
leaving exactly `rest` unconsumed; the unconsumed part is never longer
than the input. -/
def ParsesTo (s : List Char) (ns : List XNode) (rest : List Char) : Prop :=
  (∀ fuel, s.length < fuel → parseNodes fuel s = some (ns, rest))
  ∧ rest.length ≤ s.length

/-- A legal serialized tag or attribute name. -/
abbrev goodNameL (n : List Char) : Prop :=
  n ≠ [] ∧ ∀ c ∈ n, isNameChar c = true

/-- Attribute-value characters that survive the `DOMParser` round trip
verbatim: no quote (ends the literal), no raw `<` or `&` (well-formedness
errors), no literal whitespace controls (attribute-value normalization
would rewrite them). -/
abbrev goodVal (v : List Char) : Prop :=
  ∀ c ∈ v, c ≠ '"' ∧ c ≠ '<' ∧ c ≠ '&' ∧ c ≠ '\n' ∧ c ≠ '\t' ∧ c ≠ '\r'

/-- A legal serialized attribute list. -/
abbrev goodAttrs (ps : List (String × String)) : Prop :=
  ∀ p ∈ ps, goodNameL p.1.data ∧ goodVal p.2.data

/-- An entry whose rendered `id` and `value` survive the round trip. -/
abbrev entryOk (e : LabelEntry) : Prop :=
  goodVal (jsShowId e.id).data ∧ goodVal (jsShowValue e.value).data

/-- The DOM node of one generated `<Label …/>` declaration. -/
def itemNode (e : LabelEntry) : XNode :=
  .elem ("Label") [(("key"), jsShowId e.id), (("value"), jsShowValue e.value)] []

/-- The DOM nodes of the generated item list: one element per entry, the
comma of the array-to-string join becoming a text node in between. -/
def interleaveNodes : List LabelEntry → List XNode
  | [] => []
  | [e] => [itemNode e]
  | e :: es => itemNode e :: XNode.text (",") :: interleaveNodes es

/-- A newline followed by `k` spaces — the indentation runs of the
template literals. -/
def wsNL (k : Nat) : List Char :=
  '\n' :: List.replicate k ' '

/-- Name and attributes of an element node. -/
def elemSummary : XNode → Option (String × List (String × String))
  | .elem n ps _ => some (n, ps)
  | .text _ => none

/-- Parse a string as a single-element fragment and report the element's
name, its attributes, and the name and attributes of each child element
(text nodes skipped), in document order. -/
def fragmentSummary (s : String) :
    Option (String × List (String × String) × List (String × List (String × String))) :=
  match parseNodes (s.data.length + 1) s.data with
  | some ([XNode.elem n ps cs], []) => some (n, ps, cs.filterMap elemSummary)
  | _ => none

/-- The attribute list of the generated `Labels` open tag. -/
def labelsAttrs : List (String × String) :=
  [(("name"), ("tricks")), (("toName"), ("audio")), (("choice"), ("multiple"))]

/-- The character run between the generated `Labels` open and close tags:
the indentation, the serialized items, and the closing indentation. -/
def labelsInner (entries : List LabelEntry) : List Char :=
  wsNL 8 ++ ((jsJoin (entries.map labelStr)).data ++ wsNL 6)

/-- The child nodes of the parsed generated `Labels` element: the
indentation text runs around the serialized items (which merge into a
single text node when there are no items). -/
def labelsChildren (entries : List LabelEntry) : List XNode :=
  match entries with
  | [] => [XNode.text ((wsNL 8 ++ wsNL 6).asString)]
  | _ :: _ =>
    XNode.text ((wsNL 8).asString)
      :: (interleaveNodes entries ++ [XNode.text ((wsNL 6).asString)])

/-- The attribute list of the fixed `Header` line of the document
skeleton. -/
def headerAttrs : List (String × String) :=
  [(("value"), ("Video timeline segmentation via Audio sync trick"))]

/-- The attribute list of the fixed `Video` line of the document
skeleton. -/
def videoAttrs : List (String × String) :=
  [(("name"), ("video")), (("value"), ("$video")), (("sync"), ("audio"))]

/-- The attribute list of the fixed `Audio` line of the document
skeleton. -/
def audioAttrs : List (String × String) :=
  [(("name"), ("audio")), (("value"), ("$video")), (("sync"), ("video")),
   (("zoom"), ("true")), (("speed"), ("true")), (("volume"), ("true"))]

/-- The parsed root element of the generated document: the `View` with its
fixed skeleton children around the generated `Labels` element. -/
def viewElem (entries : List LabelEntry) : XNode :=
  XNode.elem ("View") []
    [XNode.text ((wsNL 6).asString),
     XNode.elem ("Header") headerAttrs [],
     XNode.text ((wsNL 6).asString),
     XNode.elem ("Video") videoAttrs [],
     XNode.text ((wsNL 6).asString),
     XNode.elem ("Labels") labelsAttrs (labelsChildren entries),
     XNode.text ((wsNL 6).asString),
     XNode.elem ("Audio") audioAttrs [],
     XNode.text ((wsNL 4).asString)]

/-! ## Helper lemmas -/

theorem spanP_append (p : Char → Bool) (xs ys : List Char)
    (h1 : ∀ x ∈ xs, p x = true)
    (h2 : ys = [] ∨ ∃ y t, ys = y :: t ∧ p y = false) :
    spanP p (xs ++ ys) = (xs, ys) := by
  induction xs with
  | nil =>
    rcases h2 with rfl | ⟨y, t, rfl, hy⟩
    · rfl
    · simp [spanP, hy]
  | cons x xs ih =>
    have hx := h1 x (by simp)
    simp [spanP, hx, ih (fun c hc => h1 c (by simp [hc]))]

theorem attrsFlat_cons (p : String × String) (ps : List (String × String)) :
    attrsFlat (p :: ps) = attrChunk p ++ attrsFlat ps := by
  simp [attrsFlat]

theorem length_le_attrsFlat (ps : List (String × String)) :
    ps.length ≤ (attrsFlat ps).length := by
  induction ps with
  | nil => simp [attrsFlat]
  | cons p ps ih =>
    have h2 : 1 ≤ (attrChunk p).length := by simp [attrChunk]
    rw [attrsFlat_cons, List.length_append, List.length_cons]
    omega

theorem isNameChar_not_ws {c : Char} (h : isNameChar c = true) : isWs c = false := by
  cases hw : isWs c
  · rfl
  · exfalso
    simp only [isWs, Bool.or_eq_true, beq_iff_eq] at hw
    rcases hw with ((rfl | rfl) | rfl) | rfl <;> revert h <;> decide

theorem isNameChar_ne {c : Char} (h : isNameChar c = true) :
    c ≠ '/' ∧ c ≠ '>' ∧ c ≠ '=' ∧ c ≠ '<' := by
  refine ⟨?_, ?_, ?_, ?_⟩ <;> rintro rfl <;> revert h <;> decide

theorem not_contains_of_forall_ne {l : List Char} {a : Char}
    (h : ∀ c ∈ l, c ≠ a) : l.contains a = false := by
  have hm : a ∉ l := fun hmem => h a hmem rfl
  simpa using hm

theorem asString_data (s : String) : s.data.asString = s := rfl

theorem parseAttrs_cons_attr (fuel : Nat) (n0 : Char) (ntail vl Y : List Char)
    (ps : List (String × String)) (rest : List Char)
    (hn0 : isNameChar n0 = true) (hnc : ∀ c ∈ ntail, isNameChar c = true)
    (hvl : goodVal vl)
    (hrec : parseAttrs fuel Y = some (ps, rest)) :
    parseAttrs (fuel + 1) (' ' :: n0 :: (ntail ++ ('=' :: '"' :: (vl ++ ('"' :: Y)))))
      = some (((n0 :: ntail).asString, vl.asString) :: ps, rest) := by
  have hwsp : isWs ' ' = true := rfl
  have hwn0 : isWs n0 = false := isNameChar_not_ws hn0
  have hname : spanP isNameChar (ntail ++ ('=' :: '"' :: (vl ++ ('"' :: Y))))
      = (ntail, '=' :: '"' :: (vl ++ ('"' :: Y))) :=
    spanP_append isNameChar ntail _ hnc (Or.inr ⟨'=', _, rfl, by decide⟩)
  have hval : spanP (fun ch => ch != '"') (vl ++ ('"' :: Y)) = (vl, '"' :: Y) :=
    spanP_append _ vl _
      (by
        intro x hx
        have := (hvl x hx).1
        simp [this])
      (Or.inr ⟨'"', _, rfl, by simp⟩)
  have hlt : vl.contains '<' = false :=
    not_contains_of_forall_ne (fun c hc => (hvl c hc).2.1)
  have hamp : vl.contains '&' = false :=
    not_contains_of_forall_ne (fun c hc => (hvl c hc).2.2.1)
  have hne := isNameChar_ne hn0
  have hn0ne : (n0 = '/' ∨ n0 = '>') = False := by
    simp only [eq_iff_iff, iff_false]
    rintro (rfl | rfl)
    · exact hne.1 rfl
    · exact hne.2.1 rfl
  simp only [parseAttrs, spanP, hwsp, if_true, hwn0, Bool.false_eq_true, if_false,
    hn0ne, hn0, hname, hval, hlt, hamp, List.isEmpty_cons, Bool.or_self,
    Bool.false_eq_true, if_false, hrec]

theorem parseAttrs_flat (ps : List (String × String)) :
    ∀ fuel rest, goodAttrs ps → ps.length < fuel →
    ((∃ t, rest = '/' :: t) ∨ (∃ t, rest = '>' :: t)) →
    parseAttrs fuel (attrsFlat ps ++ rest) = some (ps, rest) := by
  induction ps with
  | nil =>
    intro fuel rest _ hf hr
    cases fuel with
    | zero => omega
    | succ fuel =>
      rcases hr with ⟨t, rfl⟩ | ⟨t, rfl⟩ <;>
        simp [attrsFlat, parseAttrs, spanP, isWs]
  | cons p ps ih =>
    intro fuel rest hgood hf hr
    cases fuel with
    | zero => omega
    | succ fuel =>
      obtain ⟨⟨hn0, hnc⟩, hv⟩ := hgood p (by simp)
      obtain ⟨n0, ntail, hneq⟩ : ∃ n0 ntail, p.1.data = n0 :: ntail := by
        cases hh : p.1.data with
        | nil => exact absurd hh hn0
        | cons a b => exact ⟨a, b, rfl⟩
      have hshape : attrsFlat (p :: ps) ++ rest
          = ' ' :: n0 :: (ntail ++ ('=' :: '"' :: (p.2.data ++ ('"' :: (attrsFlat ps ++ rest))))) := by
        rw [attrsFlat_cons, attrChunk, hneq]
        simp [List.append_assoc]
      have hf2 : ps.length < fuel := by
        simp only [List.length_cons] at hf
        omega
      rw [hshape,
        parseAttrs_cons_attr fuel n0 ntail p.2.data (attrsFlat ps ++ rest) ps rest
          (hnc n0 (by rw [hneq]; simp))
          (fun c hc => hnc c (by rw [hneq]; simp [hc]))
          hv
          (ih fuel rest (fun q hq => hgood q (by simp [hq])) hf2 hr)]
      rw [← hneq, asString_data, asString_data]

theorem attrsFlat_head_not_name (ps : List (String × String)) (z : List Char)
    (z0 : Char) (zt : List Char) (hz : z = z0 :: zt)
    (hz0 : isNameChar z0 = false) :
    ∃ y t, attrsFlat ps ++ z = y :: t ∧ isNameChar y = false := by
  cases ps with
  | nil => exact ⟨z0, zt, by simp [attrsFlat, hz], hz0⟩
  | cons q qs =>
    refine ⟨' ', (q.1.data ++ ('=' :: '"' :: (q.2.data ++ ['"']))) ++ (attrsFlat qs ++ z),
      ?_, by decide⟩
    rw [attrsFlat_cons, attrChunk]
    simp [List.append_assoc]

theorem parsesTo_nil : ParsesTo [] [] [] := by
  refine ⟨?_, Nat.le_refl _⟩
  intro fuel h
  cases fuel with
  | zero => omega
  | succ fuel => rfl

theorem parsesTo_stop (t : List Char) :
    ParsesTo ('<' :: '/' :: t) [] ('<' :: '/' :: t) := by
  refine ⟨?_, Nat.le_refl _⟩
  intro fuel h
  cases fuel with
  | zero => omega
  | succ fuel => simp [parseNodes]

theorem parsesTo_text (txt r : List Char) (ns : List XNode) (rest : List Char)
    (hne : txt ≠ []) (hlt : ∀ c ∈ txt, c ≠ '<')
    (hr : r = [] ∨ ∃ t, r = '<' :: t)
    (hcont : ParsesTo r ns rest) :
    ParsesTo (txt ++ r) (XNode.text txt.asString :: ns) rest := by
  constructor
  case right =>
    have := hcont.2
    simp only [List.length_append]
    omega
  intro fuel hf
  obtain ⟨t0, ttail, rfl⟩ := List.exists_cons_of_ne_nil hne
  cases fuel with
  | zero => simp at hf
  | succ fuel =>
    have ht0 : (t0 = '<') = False := by
      simp only [eq_iff_iff, iff_false]
      exact hlt t0 (by simp)
    have hspan : spanP (fun ch => ch != '<') (t0 :: (ttail ++ r)) = (t0 :: ttail, r) := by
      rw [← List.cons_append]
      exact spanP_append _ (t0 :: ttail) r
        (by
          intro x hx
          have := hlt x hx
          simp [this])
        (by
          rcases hr with rfl | ⟨t, rfl⟩
          · exact Or.inl rfl
          · exact Or.inr ⟨'<', t, rfl, by simp⟩)
    have hrec : parseNodes fuel r = some (ns, rest) := by
      apply hcont.1
      simp only [List.cons_append, List.length_cons, List.length_append] at hf
      omega
    simp only [List.cons_append, List.append_eq, parseNodes, ht0, if_false, hspan, hrec]

theorem parsesTo_selfclose (name : List Char) (ps : List (String × String))
    (r : List Char) (ns : List XNode) (rest : List Char)
    (hn : goodNameL name) (hp : goodAttrs ps)
    (hr : ParsesTo r ns rest) :
    ParsesTo ('<' :: (name ++ (attrsFlat ps ++ ('/' :: '>' :: r))))
      (XNode.elem name.asString ps [] :: ns) rest := by
  constructor
  case right =>
    have := hr.2
    simp only [List.length_cons, List.length_append]
    omega
  intro fuel hf
  obtain ⟨hne, hnc⟩ := hn
  obtain ⟨n0, ntail, rfl⟩ := List.exists_cons_of_ne_nil hne
  cases fuel with
  | zero => simp at hf
  | succ fuel =>
    have hn0 : isNameChar n0 = true := hnc n0 (by simp)
    have hne0 := isNameChar_ne hn0
    have hn0slash : (n0 = '/') = False := by
      simp only [eq_iff_iff, iff_false]
      exact hne0.1
    have hnspan : spanP isNameChar (n0 :: (ntail ++ (attrsFlat ps ++ ('/' :: '>' :: r))))
        = (n0 :: ntail, attrsFlat ps ++ ('/' :: '>' :: r)) := by
      rw [← List.cons_append]
      exact spanP_append _ _ _ hnc
        (Or.inr (attrsFlat_head_not_name ps _ '/' ('>' :: r) rfl (by decide)))
    have hattrs : parseAttrs ((attrsFlat ps ++ ('/' :: '>' :: r)).length + 1)
        (attrsFlat ps ++ ('/' :: '>' :: r)) = some (ps, '/' :: '>' :: r) := by
      refine parseAttrs_flat ps _ _ hp ?_ (Or.inl ⟨'>' :: r, rfl⟩)
      have := length_le_attrsFlat ps
      simp only [List.length_append]
      omega
    have hrec : parseNodes fuel r = some (ns, rest) := by
      apply hr.1
      simp only [List.length_cons, List.cons_append, List.length_append] at hf
      omega
    simp only [List.cons_append, List.append_eq] at hnspan hattrs
    simp only [List.cons_append, List.append_eq, parseNodes, if_pos, hn0slash, if_false,
      hnspan, List.isEmpty_cons, Bool.false_eq_true, hattrs, hrec]

theorem parsesTo_openclose (name : List Char) (ps : List (String × String))
    (innerAll r : List Char) (children ns : List XNode) (rest : List Char)
    (hn : goodNameL name) (hp : goodAttrs ps)
    (hinner : ParsesTo innerAll children ('<' :: '/' :: (name ++ ('>' :: r))))
    (hr : ParsesTo r ns rest) :
    ParsesTo ('<' :: (name ++ (attrsFlat ps ++ ('>' :: innerAll))))
      (XNode.elem name.asString ps children :: ns) rest := by
  have hsuffix := hinner.2
  constructor
  case right =>
    have := hr.2
    simp only [List.length_cons, List.length_append] at hsuffix ⊢
    omega
  intro fuel hf
  obtain ⟨hne, hnc⟩ := hn
  obtain ⟨n0, ntail, rfl⟩ := List.exists_cons_of_ne_nil hne
  cases fuel with
  | zero => simp at hf
  | succ fuel =>
    have hn0 : isNameChar n0 = true := hnc n0 (by simp)
    have hne0 := isNameChar_ne hn0
    have hn0slash : (n0 = '/') = False := by
      simp only [eq_iff_iff, iff_false]
      exact hne0.1
    have hnspan : spanP isNameChar
        (n0 :: (ntail ++ (attrsFlat ps ++ ('>' :: innerAll))))
        = (n0 :: ntail, attrsFlat ps ++ ('>' :: innerAll)) := by
      rw [← List.cons_append]
      exact spanP_append _ _ _ hnc
        (Or.inr (attrsFlat_head_not_name ps _ '>' innerAll rfl (by decide)))
    have hattrs : parseAttrs
        ((attrsFlat ps ++ ('>' :: innerAll)).length + 1)
        (attrsFlat ps ++ ('>' :: innerAll))
        = some (ps, '>' :: innerAll) := by
      refine parseAttrs_flat ps _ _ hp ?_ (Or.inr ⟨_, rfl⟩)
      have := length_le_attrsFlat ps
      simp only [List.length_append]
      omega
    have hlen : (('<' :: ((n0 :: ntail) ++ (attrsFlat ps
        ++ ('>' :: innerAll)))).length) < fuel + 1 := hf
    have hchildren : parseNodes fuel innerAll
        = some (children, '<' :: '/' :: ((n0 :: ntail) ++ ('>' :: r))) := by
      apply hinner.1
      simp only [List.length_cons, List.cons_append, List.length_append] at hlen ⊢
      omega
    have hclose : spanP isNameChar ((n0 :: ntail) ++ ('>' :: r)) = (n0 :: ntail, '>' :: r) :=
      spanP_append _ _ _ hnc (Or.inr ⟨'>', r, rfl, by decide⟩)
    have hrec : parseNodes fuel r = some (ns, rest) := by
      apply hr.1
      simp only [List.length_cons, List.cons_append, List.length_append] at hlen hsuffix ⊢
      omega
    have hcn : ((n0 :: ntail) = (n0 :: ntail)) = True := by simp
    simp only [List.cons_append, List.append_eq] at hnspan hattrs hchildren hclose
    simp only [List.cons_append, List.append_eq, parseNodes, if_pos, hn0slash, if_false,
      hnspan, List.isEmpty_cons, Bool.false_eq_true, hattrs, hchildren, hclose, hcn, hrec]
    simp

theorem labelStr_data_append (e : LabelEntry) (X : List Char) :
    (labelStr e).data ++ X
      = '<' :: (("Label").data
          ++ (attrsFlat [(("key"), jsShowId e.id), (("value"), jsShowValue e.value)]
              ++ ('/' :: '>' :: X))) := by
  simp only [labelStr, attrsFlat, attrChunk, String.data_append, List.map_cons,
    List.map_nil, List.flatten_cons, List.flatten_nil, List.append_nil,
    List.append_assoc, List.cons_append, List.nil_append]

theorem wsNL_chars (k : Nat) : ∀ c ∈ wsNL k, c = '\n' ∨ c = ' ' := by
  intro c hc
  simp only [wsNL, List.mem_cons, List.mem_replicate] at hc
  rcases hc with rfl | ⟨_, rfl⟩
  · exact Or.inl rfl
  · exact Or.inr rfl

theorem wsNL_ne_nil (k : Nat) : wsNL k ≠ [] := by
  simp [wsNL]

theorem wsNL_not_lt (k : Nat) : ∀ c ∈ wsNL k, c ≠ '<' := by
  intro c hc
  rcases wsNL_chars k c hc with rfl | rfl <;> decide

theorem wsNL_all_ws (k : Nat) : ∀ c ∈ wsNL k, isWs c = true := by
  intro c hc
  rcases wsNL_chars k c hc with rfl | rfl <;> decide

theorem itemAttrs_good (e : LabelEntry) (he : entryOk e) :
    goodAttrs [(("key"), jsShowId e.id), (("value"), jsShowValue e.value)] := by
  intro p hp
  simp only [List.mem_cons, List.not_mem_nil, or_false] at hp
  rcases hp with rfl | rfl
  · refine ⟨⟨?_, ?_⟩, he.1⟩
    · show ("key").data ≠ []
      decide
    · show ∀ c ∈ ("key").data, isNameChar c = true
      decide
  · refine ⟨⟨?_, ?_⟩, he.2⟩
    · show ("value").data ≠ []
      decide
    · show ∀ c ∈ ("value").data, isNameChar c = true
      decide

theorem labelName_good : goodNameL (("Label").data) :=
  ⟨by decide, by decide⟩

theorem labelStr_head (e : LabelEntry) :
    ∃ t, (labelStr e).data = '<' :: t := by
  have h1 := labelStr_data_append e []
  rw [List.append_nil] at h1
  exact ⟨_, h1⟩

theorem jsJoin_labels_head (e2 : LabelEntry) (es2 : List LabelEntry) (X : List Char) :
    ∃ t, (jsJoin ((e2 :: es2).map labelStr)).data ++ X = '<' :: t := by
  obtain ⟨t, ht⟩ := labelStr_head e2
  have hcd : (",").data = [','] := rfl
  cases es2 with
  | nil =>
    refine ⟨t ++ X, ?_⟩
    simp only [List.map_cons, List.map_nil, jsJoin, ht]
    rfl
  | cons e3 es3 =>
    refine ⟨t ++ (',' :: ((jsJoin ((e3 :: es3).map labelStr)).data ++ X)), ?_⟩
    simp only [List.map_cons, jsJoin, String.data_append, hcd, ht, List.append_assoc,
      List.cons_append, List.nil_append]

theorem parsesTo_item_selfclose (e : LabelEntry) (he : entryOk e)
    (r : List Char) (ns : List XNode) (rest : List Char)
    (hr : ParsesTo r ns rest) :
    ParsesTo ((labelStr e).data ++ r) (itemNode e :: ns) rest := by
  rw [labelStr_data_append]
  exact parsesTo_selfclose (("Label").data) _ r ns rest labelName_good
    (itemAttrs_good e he) hr

theorem parsesTo_items (es : List LabelEntry) (tail : List Char)
    (hok : ∀ e ∈ es, entryOk e) (hne : es ≠ [])
    (htail : ∃ t, tail = '<' :: '/' :: t) :
    ParsesTo ((jsJoin (es.map labelStr)).data ++ (wsNL 6 ++ tail))
      (interleaveNodes es ++ [XNode.text ((wsNL 6).asString)]) tail := by
  obtain ⟨tl, htl⟩ := htail
  induction es with
  | nil => exact absurd rfl hne
  | cons e es ih =>
    have he := hok e (by simp)
    have hwsText : ParsesTo (wsNL 6 ++ tail) [XNode.text ((wsNL 6).asString)] tail := by
      refine parsesTo_text (wsNL 6) tail [] tail (wsNL_ne_nil 6) (wsNL_not_lt 6)
        (Or.inr ⟨'/' :: tl, by rw [htl]⟩) ?_
      rw [htl]
      exact parsesTo_stop tl
    cases es with
    | nil =>
      have : (jsJoin ((e :: []).map labelStr)).data ++ (wsNL 6 ++ tail)
          = (labelStr e).data ++ (wsNL 6 ++ tail) := by
        simp [jsJoin]
      rw [this]
      exact parsesTo_item_selfclose e he _ _ tail hwsText
    | cons e2 es2 =>
      have hform : (jsJoin ((e :: e2 :: es2).map labelStr)).data ++ (wsNL 6 ++ tail)
          = (labelStr e).data
              ++ (',' :: ((jsJoin ((e2 :: es2).map labelStr)).data ++ (wsNL 6 ++ tail))) := by
        simp [jsJoin, String.data_append, List.append_assoc]
      have hcomma : ParsesTo
          (',' :: ((jsJoin ((e2 :: es2).map labelStr)).data ++ (wsNL 6 ++ tail)))
          (XNode.text (([',']).asString)
            :: (interleaveNodes (e2 :: es2) ++ [XNode.text ((wsNL 6).asString)])) tail := by
        have := parsesTo_text ([','])
          ((jsJoin ((e2 :: es2).map labelStr)).data ++ (wsNL 6 ++ tail))
          (interleaveNodes (e2 :: es2) ++ [XNode.text ((wsNL 6).asString)]) tail
          (by simp) (by intro c hc; simp at hc; rw [hc]; decide)
          (Or.inr (jsJoin_labels_head e2 es2 (wsNL 6 ++ tail)))
          (ih (fun q hq => hok q (by simp [hq])) (by simp))
        simpa using this
      rw [hform]
      have hfull := parsesTo_item_selfclose e he _ _ tail hcomma
      have hnodes : XNode.text (([',']).asString) = XNode.text (",") := rfl
      rw [hnodes] at hfull
      simpa [interleaveNodes] using hfull

theorem labelsName_good : goodNameL (("Labels").data) :=
  ⟨by decide, by decide⟩

theorem labelsAttrs_good : goodAttrs labelsAttrs := by
  intro p hp
  simp only [labelsAttrs, List.mem_cons, List.not_mem_nil, or_false] at hp
  rcases hp with rfl | rfl | rfl
  · exact ⟨⟨by decide, by decide⟩, by decide⟩
  · exact ⟨⟨by decide, by decide⟩, by decide⟩
  · exact ⟨⟨by decide, by decide⟩, by decide⟩

theorem parsesTo_labels_inner (entries : List LabelEntry)
    (hok : ∀ e ∈ entries, entryOk e) (r : List Char) :
    ParsesTo
      (labelsInner entries ++ ('<' :: '/' :: ((("Labels").data) ++ ('>' :: r))))
      (labelsChildren entries)
      ('<' :: '/' :: ((("Labels").data) ++ ('>' :: r))) := by
  cases entries with
  | nil =>
    have heq : labelsInner [] ++ ('<' :: '/' :: ((("Labels").data) ++ ('>' :: r)))
        = (wsNL 8 ++ wsNL 6) ++ ('<' :: '/' :: ((("Labels").data) ++ ('>' :: r))) := by
      simp [labelsInner, jsJoin, List.append_assoc]
    rw [heq]
    refine parsesTo_text (wsNL 8 ++ wsNL 6) _ [] _ ?_ ?_ ?_ (parsesTo_stop _)
    · simp [wsNL]
    · intro c hc
      simp only [List.mem_append] at hc
      rcases hc with hc | hc <;> exact wsNL_not_lt _ c hc
    · exact Or.inr ⟨_, rfl⟩
  | cons e es =>
    have heq : labelsInner (e :: es) ++ ('<' :: '/' :: ((("Labels").data) ++ ('>' :: r)))
        = wsNL 8 ++ ((jsJoin ((e :: es).map labelStr)).data
            ++ (wsNL 6 ++ ('<' :: '/' :: ((("Labels").data) ++ ('>' :: r))))) := by
      simp [labelsInner, List.append_assoc]
    rw [heq]
    refine parsesTo_text (wsNL 8) _ _ _ (wsNL_ne_nil 8) (wsNL_not_lt 8)
      (Or.inr (jsJoin_labels_head e es _)) ?_
    exact parsesTo_items (e :: es) _ hok (by simp) ⟨_, rfl⟩

theorem configLbl_data_append (entries : List LabelEntry) (r : List Char) :
    (getUpdatedConfigLbl entries).data ++ r
      = '<' :: ((("Labels").data)
          ++ (attrsFlat labelsAttrs
              ++ ('>' :: (labelsInner entries
                  ++ ('<' :: '/' :: ((("Labels").data) ++ ('>' :: r))))))) := by
  simp only [getUpdatedConfigLbl, labelsAttrs, labelsInner, attrsFlat, attrChunk,
    String.data_append, List.map_cons, List.map_nil, List.flatten_cons, List.flatten_nil,
    List.append_nil, List.append_assoc, List.cons_append, List.nil_append, wsNL]
  rfl

theorem parsesTo_labels_elem (entries : List LabelEntry)
    (hok : ∀ e ∈ entries, entryOk e)
    (r : List Char) (ns : List XNode) (rest : List Char)
    (hr : ParsesTo r ns rest) :
    ParsesTo ((getUpdatedConfigLbl entries).data ++ r)
      (XNode.elem ("Labels") labelsAttrs (labelsChildren entries) :: ns) rest := by
  rw [configLbl_data_append]
  exact parsesTo_openclose (("Labels").data) labelsAttrs
    (labelsInner entries ++ ('<' :: '/' :: ((("Labels").data) ++ ('>' :: r)))) r
    (labelsChildren entries) ns rest labelsName_good labelsAttrs_good
    (parsesTo_labels_inner entries hok r) hr

theorem fragmentSummary_of_parsesTo (s : String) (n : String)
    (ps : List (String × String)) (cs : List XNode)
    (h : ParsesTo s.data [XNode.elem n ps cs] []) :
    fragmentSummary s = some (n, ps, cs.filterMap elemSummary) := by
  unfold fragmentSummary
  rw [h.1 (s.data.length + 1) (by omega)]

theorem interleave_filterMap_elemSummary (es : List LabelEntry) :
    (interleaveNodes es).filterMap elemSummary
      = es.map (fun e => (("Label"),
          [(("key"), jsShowId e.id), (("value"), jsShowValue e.value)])) := by
  induction es with
  | nil => rfl
  | cons e es ih =>
    cases es with
    | nil => rfl
    | cons e2 es2 =>
      simp only [interleaveNodes, List.filterMap_cons, itemNode, elemSummary] at ih ⊢
      rw [ih]
      rfl

theorem labelsChildren_elemSummary (entries : List LabelEntry) :
    (labelsChildren entries).filterMap elemSummary
      = (interleaveNodes entries).filterMap elemSummary := by
  cases entries with
  | nil => rfl
  | cons e es =>
    simp [labelsChildren, elemSummary, List.filterMap_cons, List.filterMap_append]

theorem parsesTo_openclose_nochildren (name : List Char) (ps : List (String × String))
    (r : List Char) (ns : List XNode) (rest : List Char)
    (hn : goodNameL name) (hp : goodAttrs ps) (hr : ParsesTo r ns rest) :
    ParsesTo ('<' :: (name ++ (attrsFlat ps
        ++ ('>' :: ('<' :: '/' :: (name ++ ('>' :: r)))))))
      (XNode.elem name.asString ps [] :: ns) rest :=
  parsesTo_openclose name ps ('<' :: '/' :: (name ++ ('>' :: r))) r [] ns rest hn hp
    (parsesTo_stop _) hr

theorem parseDocument_of_parsesTo (s : String) (t1 t2 : String) (n : String)
    (a : List (String × String)) (c : List XNode)
    (h : ParsesTo s.data [XNode.text t1, XNode.elem n a c, XNode.text t2] [])
    (h1 : t1.data.all isWs = true) (h2 : t2.data.all isWs = true) :
    parseDocument s = some (XNode.elem n a c) := by
  unfold parseDocument
  rw [h.1 (s.data.length + 1) (by omega)]
  simp [isWsOnlyText, h1, h2]

theorem viewName_good : goodNameL (("View").data) := by decide

theorem headerName_good : goodNameL (("Header").data) := by decide

theorem videoName_good : goodNameL (("Video").data) := by decide

theorem audioName_good : goodNameL (("Audio").data) := by decide

theorem headerAttrs_good : goodAttrs headerAttrs := by decide

theorem videoAttrs_good : goodAttrs videoAttrs := by decide

theorem audioAttrs_good : goodAttrs audioAttrs := by decide

theorem nilAttrs_good : goodAttrs [] := by
  intro p hp
  exact absurd hp (List.not_mem_nil p)

set_option maxRecDepth 100000 in
theorem parsesTo_rootConfig (entries : List LabelEntry)
    (hok : ∀ e ∈ entries, entryOk e) :
    ParsesTo (getUpdatedRootConfig (getUpdatedConfigLbl entries)).data
      [XNode.text ((wsNL 4).asString), viewElem entries,
       XNode.text ((wsNL 4).asString)] [] := by
  -- trailing whitespace after the close of the root
  have h9 : ParsesTo (wsNL 4) [XNode.text ((wsNL 4).asString)] [] := by
    have h := parsesTo_text (wsNL 4) [] [] [] (wsNL_ne_nil 4) (wsNL_not_lt 4)
      (Or.inl rfl) parsesTo_nil
    simpa using h
  -- inside the root, built right to left up to the `</View>` stop
  have h8 := parsesTo_stop ((("View").data) ++ ('>' :: wsNL 4))
  have h7 := parsesTo_text (wsNL 4) _ _ _ (wsNL_ne_nil 4) (wsNL_not_lt 4)
    (Or.inr ⟨_, rfl⟩) h8
  have h6 := parsesTo_selfclose (("Audio").data) audioAttrs _ _ _
    audioName_good audioAttrs_good h7
  have h5 := parsesTo_text (wsNL 6) _ _ _ (wsNL_ne_nil 6) (wsNL_not_lt 6)
    (Or.inr ⟨_, rfl⟩) h6
  have h4 := parsesTo_labels_elem entries hok _ _ _ h5
  have h3 := parsesTo_text (wsNL 6) _ _ _ (wsNL_ne_nil 6) (wsNL_not_lt 6)
    (Or.inr ⟨_, configLbl_data_append entries _⟩) h4
  have h2 := parsesTo_openclose_nochildren (("Video").data) videoAttrs _ _ _
    videoName_good videoAttrs_good h3
  have h1 := parsesTo_text (wsNL 6) _ _ _ (wsNL_ne_nil 6) (wsNL_not_lt 6)
    (Or.inr ⟨_, rfl⟩) h2
  have h0 := parsesTo_selfclose (("Header").data) headerAttrs _ _ _
    headerName_good headerAttrs_good h1
  have hin := parsesTo_text (wsNL 6) _ _ _ (wsNL_ne_nil 6) (wsNL_not_lt 6)
    (Or.inr ⟨_, rfl⟩) h0
  have hview := parsesTo_openclose (("View").data) [] _ (wsNL 4) _ _ []
    viewName_good nilAttrs_good hin h9
  have htop := parsesTo_text (wsNL 4) _ _ _ (wsNL_ne_nil 4) (wsNL_not_lt 4)
    (Or.inr ⟨_, rfl⟩) hview
  have hd : (getUpdatedRootConfig (getUpdatedConfigLbl entries)).data
      = ("\n    <View>\n      <Header value=\"Video timeline segmentation via Audio sync trick\"/>\n      <Video name=\"video\" value=\"$video\" sync=\"audio\"></Video>\n      ").data
        ++ ((getUpdatedConfigLbl entries).data
          ++ ("\n      <Audio name=\"audio\" value=\"$video\" sync=\"video\" zoom=\"true\" speed=\"true\" volume=\"true\"/>\n    </View>\n    ").data) := by
    simp only [getUpdatedRootConfig, String.data_append, List.append_assoc]
  rw [hd]
  exact htop

theorem parseDocument_rootConfig (entries : List LabelEntry)
    (hok : ∀ e ∈ entries, entryOk e) :
    parseDocument (getUpdatedRootConfig (getUpdatedConfigLbl entries))
      = some (viewElem entries) :=
  parseDocument_of_parsesTo _ ((wsNL 4).asString) ((wsNL 4).asString)
    ("View") [] _ (parsesTo_rootConfig entries hok) (by decide) (by decide)

theorem interleave_filterMap_value (es : List LabelEntry) :
    (interleaveNodes es).filterMap
        (fun n => (n.getAttr ("value")).map (fun v => strToLower v))
      = es.map (fun e => strToLower (jsShowValue e.value)) := by
  have hkv : ((("key") : String) == (("value") : String)) = false := by decide
  have hvv : ((("value") : String) == (("value") : String)) = true := by decide
  induction es with
  | nil => rfl
  | cons e es ih =>
    cases es with
    | nil =>
      simp [interleaveNodes, itemNode, XNode.getAttr, List.filterMap_cons,
        List.find?, hkv, hvv]
    | cons e2 es2 =>
      simp only [interleaveNodes, List.filterMap_cons, itemNode, XNode.getAttr,
        List.find?, hkv, hvv] at ih ⊢
      simp only [List.map_cons] at ih ⊢
      rw [ih]
      rfl

theorem setEmptyFirstNull_of_no_null (cs : List LabelEntry)
    (h : ∀ c ∈ cs, c.value ≠ none) : setEmptyFirstNull cs = cs := by
  induction cs with
  | nil => rfl
  | cons c cs ih =>
    have hc := h c (by simp)
    simp only [setEmptyFirstNull, if_neg hc]
    rw [ih (fun x hx => h x (by simp [hx]))]

theorem countP_isEmpty_zero (cs : List LabelEntry)
    (h : ∀ c ∈ cs, c.isEmpty = false) :
    cs.countP (fun c => c.isEmpty) = 0 := by
  rw [List.countP_eq_zero]
  intro c hc
  simp [h c hc]

theorem resolveSelection_go (keys : List JsVal) (acc : List LabelEntry) :
    keys.foldl
      (fun labels k =>
        match dummyLookup k with
        | some item => labels ++ [item]
        | none => labels)
      acc
      = acc ++ keys.filterMap dummyLookup := by
  induction keys generalizing acc with
  | nil => simp
  | cons k keys ih =>
    simp only [List.foldl_cons, List.filterMap_cons]
    cases h : dummyLookup k with
    | none => rw [ih]
    | some item => rw [ih]; simp

theorem resolveSelection_eq_filterMap (keys : List JsVal) :
    resolveSelection keys = keys.filterMap dummyLookup := by
  simpa using resolveSelection_go keys []

theorem dummyLookup_key {k : JsVal} {e : LabelEntry}
    (h : dummyLookup k = some e) :
    ∃ v, e.value = some v ∧ k = JsVal.str (strToLower v) := by
  have hm : dummyMatches k e = true := List.find?_some h
  cases hv : e.value with
  | none => simp [dummyMatches, hv] at hm
  | some v =>
    refine ⟨v, rfl, ?_⟩
    cases k with
    | methodRef => simp [dummyMatches, hv, jsStrictEq] at hm
    | str b =>
      simp only [dummyMatches, hv, jsStrictEq, beq_iff_eq] at hm
      rw [hm]

theorem count_filterMap_dummyLookup (keys : List JsVal) (k : JsVal)
    (e : LabelEntry) (hk : dummyLookup k = some e) :
    (keys.filterMap dummyLookup).count e = keys.count k := by
  induction keys with
  | nil => rfl
  | cons a keys ih =>
    by_cases hak : a = k
    · subst hak
      simp [List.filterMap_cons, hk, List.count_cons, ih]
    · have hne : ∀ b, dummyLookup a = some b → b ≠ e := by
        intro b hb hbe
        subst hbe
        obtain ⟨v, hv, hkk⟩ := dummyLookup_key hk
        obtain ⟨w, hw, haa⟩ := dummyLookup_key hb
        rw [hv] at hw
        cases hw
        exact hak (haa.trans hkk.symm)
      cases hb : dummyLookup a with
      | none => simp [List.filterMap_cons, hb, List.count_cons, ih, hak]
      | some b =>
        have := hne b hb
        simp [List.filterMap_cons, hb, List.count_cons, ih, hak, this]

/-- The catalog invariant maintained by valid event sequences: `ready`
carries a cleared message, `error` a non-blank one, and `idle` never
recurs. -/
def catInv (c : Catalog) : Prop :=
  (c.status = .ready → c.errMsg = some ("")) ∧
  (c.status = .error → ∃ m, c.errMsg = some m ∧ (jsTrim m == "") = false) ∧
  c.status ≠ .idle

theorem catInv_run (evs : List CatEv) (c : Catalog) (hc : catInv c)
    (hv : catValid c evs = true) : catInv (catRun c evs) := by
  induction evs generalizing c with
  | nil => exact hc
  | cons e evs ih =>
    simp only [catValid, Bool.and_eq_true] at hv
    refine ih (catStep c e) ?_ hv.2
    cases e with
    | fetchStart =>
      refine ⟨?_, ?_, ?_⟩ <;> simp [catStep]
    | fetchSuccess opts =>
      refine ⟨?_, ?_, ?_⟩ <;> simp [catStep]
    | fetchFailure m =>
      simp only [Bool.and_eq_true, Bool.not_eq_true'] at hv
      refine ⟨by simp [catStep], ?_, by simp [catStep]⟩
      intro _
      exact ⟨m, rfl, hv.1.2⟩

theorem confirmDisabled_of_inv (c : Catalog) (hc : catInv c) :
    confirmDisabled c
      = ((c.status == CatStatus.loading) || (c.status == CatStatus.error)) := by
  obtain ⟨hready, herror, hidle⟩ := hc
  cases hs : c.status with
  | idle => exact absurd hs hidle
  | loading => simp [confirmDisabled, hs]
  | ready =>
    have h1 := hready hs
    simp only [confirmDisabled, hs, h1]
    decide
  | error =>
    obtain ⟨m, hm, hmne⟩ := herror hs
    simp only [confirmDisabled, hs, hm, jsErrMsgNonBlank]
    simp [hmne]

theorem getDefaultOptions_some (config : String) (v lb : XNode)
    (hp : parseDocument config = some v)
    (hf : v.childNodes.find? (fun n => n.nodeName == "Labels") = some lb) :
    getDefaultOptions config
      = (lb.childNodes.filterMap
          (fun n => (n.getAttr ("value")).map (fun vv => strToLower vv)), false) := by
  unfold getDefaultOptions
  simp only [hp, hf]

/-! ## Claims -/

/-- Claim C1: for every configuration with `allowEmpty = true`, after
`afterCreate` the empty sentinel is present exactly once among the
children and is the first child, regardless of how many static or dynamic
children exist (all of which carry a non-`null` value and are not yet
flagged). -/
theorem c1_sentinel_unique_first (children : Option (List LabelEntry))
    (h : ∀ c ∈ children.getD [], c.value ≠ none ∧ c.isEmpty = false) :
    ∃ rs, afterCreate true children = some rs ∧
      rs = { emptyParams with isEmpty := true } :: children.getD [] ∧
      rs.countP (fun c => c.isEmpty) = 1 := by
  refine ⟨{ emptyParams with isEmpty := true } :: children.getD [], ?_, rfl, ?_⟩
  · cases children with
    | none => rfl
    | some cs =>
      have hfind : cs.find? (fun c => c.value = none) = none := by
        rw [List.find?_eq_none]
        intro c hc
        simpa using (h c (by simpa using hc)).1
      simp [afterCreate, hfind]
  · rw [List.countP_cons]
    rw [countP_isEmpty_zero _ (fun c hc => (h c hc).2)]
    simp

/-- Claim C1 witness: two static children. -/
theorem c1_witness :
    ∃ rs,
      afterCreate true
          (some [{ id := some 1, value := some ("Brand") },
                 { id := some 2, value := some ("Product") }]) = some rs ∧
      rs = { emptyParams with isEmpty := true }
            :: (some [{ id := some 1, value := some ("Brand") },
                      { id := some 2, value := some ("Product") }]).getD [] ∧
      rs.countP (fun c => c.isEmpty) = 1 :=
  c1_sentinel_unique_first
    (some [{ id := some 1, value := some ("Brand") },
           { id := some 2, value := some ("Product") }])
    (by decide)

/-- Claim C2 counterexample: with a persist that resolves falsy, the
children are indeed unchanged, but the dialog does not remain open —
`setOpenLblSelection(false)` runs unconditionally after the `await`. -/
theorem c2_counterexample :
    (handleApplySelection (fun _ => false) []
        { openLblSelection := true, labelsSelection := [JsVal.str ("air_squat.up")] }).1 = [] ∧
    (handleApplySelection (fun _ => false) []
        { openLblSelection := true, labelsSelection := [JsVal.str ("air_squat.up")] }).2.openLblSelection
      = false := by
  decide

/-- Claim C2 (amended): if the persist operation resolves falsy during the
confirm handler, `addLabel` is not called, so the children are unchanged —
but the selection dialog is closed regardless of the outcome rather than
remaining open. -/
theorem c2_persist_failure (persist : String → Bool)
    (children : List LabelEntry) (s : CompState)
    (h : persist (getUpdatedRootConfig
        (getUpdatedConfigLbl (resolveSelection s.labelsSelection))) = false) :
    (handleApplySelection persist children s).1 = children ∧
    (handleApplySelection persist children s).2.openLblSelection = false := by
  unfold handleApplySelection
  simp [h]

/-- Claim C2 witness. -/
theorem c2_witness :
    (handleApplySelection (fun _ => false) [emptyParams]
        { openLblSelection := true, labelsSelection := [] }).1 = [emptyParams] ∧
    (handleApplySelection (fun _ => false) [emptyParams]
        { openLblSelection := true, labelsSelection := [] }).2.openLblSelection = false :=
  c2_persist_failure (fun _ => false) [emptyParams]
    { openLblSelection := true, labelsSelection := [] } rfl

/-- Claim C3: for every non-empty sequence of non-sentinel entries whose
rendered attribute values contain no markup-breaking characters,
extracting values from the document built around the generated fragment
returns the lower-cased entry values in the same order (with no logged
failure). -/
theorem c3_roundtrip (entries : List LabelEntry) (hne : entries ≠ [])
    (hsent : ∀ e ∈ entries, e.isEmpty = false ∧ e.value ≠ none)
    (hok : ∀ e ∈ entries, entryOk e) :
    getDefaultOptions (getUpdatedRootConfig (getUpdatedConfigLbl entries))
      = (entries.map (fun e => strToLower (jsShowValue e.value)), false) := by
  obtain ⟨e, es, rfl⟩ : ∃ e es, entries = e :: es := by
    cases entries with
    | nil => exact absurd rfl hne
    | cons e es => exact ⟨e, es, rfl⟩
  have hfind : (viewElem (e :: es)).childNodes.find? (fun n => n.nodeName == "Labels")
      = some (XNode.elem ("Labels") labelsAttrs (labelsChildren (e :: es))) := by
    simp [viewElem, XNode.childNodes, XNode.nodeName, List.find?]
  rw [getDefaultOptions_some _ _ _ (parseDocument_rootConfig (e :: es) hok) hfind]
  refine Prod.ext ?_ rfl
  show List.filterMap (fun n => (n.getAttr ("value")).map (fun vv => strToLower vv))
      (XNode.text ((wsNL 8).asString)
        :: (interleaveNodes (e :: es) ++ [XNode.text ((wsNL 6).asString)])) = _
  rw [List.filterMap_cons_none rfl, List.filterMap_append,
    List.filterMap_cons_none rfl, List.filterMap_nil, List.append_nil,
    interleave_filterMap_value]

/-- Claim C3 witness: a two-entry round trip, one value carrying capital
letters and a blank. -/
theorem c3_witness :
    getDefaultOptions (getUpdatedRootConfig (getUpdatedConfigLbl
        [{ id := some 1, value := some ("air_squat.down") },
         { id := some 2, value := some ("Air Squat.UP") }]))
      = (["air_squat.down", "air squat.up"], false) :=
  c3_roundtrip
    [{ id := some 1, value := some ("air_squat.down") },
     { id := some 2, value := some ("Air Squat.UP") }]
    (by decide) (by decide) (by decide)

/-- Claim C4: the confirm handler resolves pending keys against the
hardcoded `dummyData` list, not against the fetched option catalog: the
key `squat`, present in a catalog holding `{id: 7, value: "Squat"}`, is
dropped by the code, while `air_squat.down`, absent from that catalog, is
resolved to a `dummyData` record. -/
theorem c4_resolves_against_dummyData :
    resolveSelection [JsVal.str ("squat")] = [] ∧
    resolveAgainstCatalog [{ id := some 7, value := some ("Squat") }]
        [JsVal.str ("squat")]
      = [{ id := some 7, value := some ("Squat") }] ∧
    resolveSelection [JsVal.str ("air_squat.down")]
      = [{ id := some 1, value := some ("air_squat.down") }] ∧
    resolveAgainstCatalog [{ id := some 7, value := some ("Squat") }]
        [JsVal.str ("air_squat.down")] = [] := by
  decide

/-- Claim C5 counterexample: an entry flagged as the empty sentinel IS
emitted into the fragment — the generator maps every entry to a child
declaration without filtering; the sentinel's declaration carries
`key="undefined"` and `value="null"`. -/
theorem c5_counterexample :
    fragmentSummary (getUpdatedConfigLbl [{ value := none, isEmpty := true }])
      = some (("Labels"),
          [(("name"), ("tricks")), (("toName"), ("audio")), (("choice"), ("multiple"))],
          [(("Label"), [(("key"), ("undefined")), (("value"), ("null"))])]) := by
  decide

/-- Claim C5 (amended): for every ordered sequence of label entries with
markup-safe rendered values, the generated fragment declares the
label-set tag with attributes `name="tricks" toName="audio"
choice="multiple"` and exactly one child label declaration per entry, in
input order, each carrying that entry's rendered id and value — entries
flagged as the empty sentinel included (they are emitted too, with
`key="undefined" value="null"`; callers only ever pass resolved catalog
records). -/
theorem c5_fragment_decls (entries : List LabelEntry)
    (hok : ∀ e ∈ entries, entryOk e) :
    fragmentSummary (getUpdatedConfigLbl entries)
      = some (("Labels"),
          [(("name"), ("tricks")), (("toName"), ("audio")), (("choice"), ("multiple"))],
          entries.map (fun e => (("Label"),
            [(("key"), jsShowId e.id), (("value"), jsShowValue e.value)]))) := by
  have h := parsesTo_labels_elem entries hok [] [] [] parsesTo_nil
  rw [List.append_nil] at h
  rw [fragmentSummary_of_parsesTo _ _ _ _ h]
  rw [labelsChildren_elemSummary, interleave_filterMap_elemSummary]
  rfl

/-- Claim C5 witness. -/
theorem c5_witness :
    fragmentSummary (getUpdatedConfigLbl
        [{ id := some 1, value := some ("air_squat.down") },
         { id := some 2, value := some ("Air Squat.UP") }])
      = some (("Labels"),
          [(("name"), ("tricks")), (("toName"), ("audio")), (("choice"), ("multiple"))],
          [(("Label"), [(("key"), ("1")), (("value"), ("air_squat.down"))]),
           (("Label"), [(("key"), ("2")), (("value"), ("Air Squat.UP"))])]) :=
  c5_fragment_decls
    [{ id := some 1, value := some ("air_squat.down") },
     { id := some 2, value := some ("Air Squat.UP") }]
    (by decide)

/-- Claim C6: the mount-time seeding maps each of the current children to
the `toLowerCase` method reference (the call parentheses are missing in
the source), not to its lower-cased value: for the child `Brand` the
seeded selection is the function object, which is not the string
`brand`. -/
theorem c6_seed_is_method_reference :
    mountSelection [{ id := some 1, value := some ("Brand") }] ("")
      = Except.ok [JsVal.methodRef] ∧
    (seedSpec [{ id := some 1, value := some ("Brand") }] ("")).map JsVal.str
      = [JsVal.str ("brand")] ∧
    JsVal.methodRef ≠ JsVal.str ("brand") :=
  ⟨rfl, by decide, by decide⟩

/-- Claim C7: over every spec-valid event sequence following the fetch
triggered at mount, the Apply-selection button is disabled exactly while
the catalog is loading or in error, and is enabled whenever it is ready
with no error; in particular a successful refresh after a failure
re-enables it. -/
theorem c7_confirm_disabled_iff (evs : List CatEv)
    (hv : catValid (catStep initCatalog CatEv.fetchStart) evs = true) :
    confirmDisabled (catRun (catStep initCatalog CatEv.fetchStart) evs)
      = (((catRun (catStep initCatalog CatEv.fetchStart) evs).status == CatStatus.loading)
          || ((catRun (catStep initCatalog CatEv.fetchStart) evs).status == CatStatus.error)) := by
  refine confirmDisabled_of_inv _ (catInv_run evs _ ?_ hv)
  refine ⟨?_, ?_, ?_⟩ <;> simp [initCatalog, catStep]

/-- Claim C7 witness: a failed fetch, then a refresh that succeeds — the
confirm action ends enabled. -/
theorem c7_witness :
    confirmDisabled (catRun (catStep initCatalog CatEv.fetchStart)
        [CatEv.fetchFailure ("network timeout"), CatEv.fetchStart,
         CatEv.fetchSuccess [{ id := some 1, value := some ("A") }]])
      = (((catRun (catStep initCatalog CatEv.fetchStart)
            [CatEv.fetchFailure ("network timeout"), CatEv.fetchStart,
             CatEv.fetchSuccess [{ id := some 1, value := some ("A") }]]).status
              == CatStatus.loading)
          || ((catRun (catStep initCatalog CatEv.fetchStart)
            [CatEv.fetchFailure ("network timeout"), CatEv.fetchStart,
             CatEv.fetchSuccess [{ id := some 1, value := some ("A") }]]).status
              == CatStatus.error)) :=
  c7_confirm_disabled_iff _ (by decide)

/-- Claim C8 counterexample: after editing the pending selection, cancel
followed by reopening retains the edit — `setLabelsSelection([])` is
commented out, so the pending selection is not dropped. -/
theorem c8_counterexample :
    (handleAddLabel (handleDiscardSelection
        { children := [], catalog := initCatalog,
          ui := { openLblSelection := true,
                  labelsSelection := [JsVal.str ("air_squat.up")] } })).ui.labelsSelection
      = [JsVal.str ("air_squat.up")] ∧
    [JsVal.str ("air_squat.up")] ≠ ([] : List JsVal) := by
  decide

/-- Claim C8 (amended): discarding transitions the dialog from open to
closed without mutating the label set, the catalog, or the pending
selection — the pending selection is retained, so a subsequently reopened
dialog shows the selection edits made before the cancel. -/
theorem c8_discard_frame (s : AppState) :
    (handleDiscardSelection s).ui.openLblSelection = false ∧
    (handleDiscardSelection s).children = s.children ∧
    (handleDiscardSelection s).catalog = s.catalog ∧
    (handleDiscardSelection s).ui.labelsSelection = s.ui.labelsSelection ∧
    (handleAddLabel (handleDiscardSelection s)).ui.labelsSelection
      = s.ui.labelsSelection := by
  simp [handleDiscardSelection, handleAddLabel]

/-- Claim C9: whenever the document is unparsable (the model of the
`parsererror` document) or its root has no `Labels` child, the read-back
returns the empty sequence and logs the failure (`console.error`) instead
of throwing. -/
theorem c9_extract_fallback (config : String)
    (h : (parseDocument config).all
        (fun v => (v.childNodes.find? (fun n => n.nodeName == "Labels")).isNone)
      = true) :
    getDefaultOptions config = ([], true) := by
  unfold getDefaultOptions
  cases hp : parseDocument config with
  | none => rfl
  | some v =>
    rw [hp] at h
    simp only [Option.all_some, Option.isNone_iff_eq_none] at h
    simp [h]

/-- Claim C9 witness: a parsable document with no `Labels` tag, and an
unparsable document. -/
theorem c9_witness :
    getDefaultOptions ("<View><Text name=\"t\" value=\"$text\"/></View>")
      = ([], true) :=
  c9_extract_fallback _ (by decide)

/-- Claim C10: the resolved entry list follows the order of the pending
keys — it is the in-order `filterMap` of the first-match lookup, with
unmatched keys dropped — and a key matching an entry contributes that
entry once per occurrence, so duplicate keys produce duplicate
children. -/
theorem c10_resolution_order_and_duplicates (keys : List JsVal) :
    resolveSelection keys = keys.filterMap dummyLookup ∧
    (∀ k e, dummyLookup k = some e →
      (resolveSelection keys).count e = keys.count k) := by
  refine ⟨resolveSelection_eq_filterMap keys, ?_⟩
  intro k e hk
  rw [resolveSelection_eq_filterMap keys]
  exact count_filterMap_dummyLookup keys k e hk

/-- Claim C10 witness: the key `air_squat.up` occurring twice resolves to
the same entry twice. -/
theorem c10_witness :
    (resolveSelection [JsVal.str ("air_squat.up"), JsVal.str ("air_squat.up")]).count
        { id := some 2, value := some ("air_squat.up") } = 2 := by
  rw [(c10_resolution_order_and_duplicates
        [JsVal.str ("air_squat.up"), JsVal.str ("air_squat.up")]).2
      (JsVal.str ("air_squat.up"))
      { id := some 2, value := some ("air_squat.up") } (by decide)]
  decide
